import Mathlib

/-!
Shallow embedding of the mass-spectrometry viewer's scan-navigation and
spectrum-rendering engine (`simple_ms1_tab.py`, `ms1_ms2_tab.py`,
`zoom_viewer_tab.py`), together with proofs about its behaviour.

Rationals stand for Python floats (every constant and input considered here
is exactly representable), integers for Python ints, and explicit state
records for the mutable widget state of each tab.
-/

/-- Python `round`: round half to even (banker's rounding), on rationals. -/
def pyRound (x : ℚ) : ℤ :=
  let f := ⌊x⌋
  let r := x - (f : ℚ)
  if r < 1/2 then f
  else if 1/2 < r then f + 1
  else if f % 2 = 0 then f else f + 1

/-- `pandas.Series.max` over a list of rationals (0 for an empty list, which
the source never reaches on the paths modelled here). -/
def listMax : List ℚ → ℚ
  | [] => 0
  | x :: xs => xs.foldl max x

/-- `pandas.Series.min` over a list of rationals. -/
def listMin : List ℚ → ℚ
  | [] => 0
  | x :: xs => xs.foldl min x

/-- Insert into an ascending-sorted list of integers. -/
def insertAsc (x : ℤ) : List ℤ → List ℤ
  | [] => [x]
  | y :: ys => if x ≤ y then x :: y :: ys else y :: insertAsc x ys

/-- Python `sorted` on a list of integers. -/
def sortAsc (l : List ℤ) : List ℤ := l.foldr insertAsc []

/-- Python `list.sort(reverse=True)`. -/
def sortDesc (l : List ℤ) : List ℤ := (sortAsc l).reverse

/-- `sorted(series.unique())`: the distinct values in ascending order. -/
def uniqueSorted (l : List ℤ) : List ℤ := sortAsc l.dedup

/-- Python `pat in s` on strings (substring test). -/
def strContains (s pat : String) : Bool :=
  (List.range (s.toList.length + 1)).any
    (fun i => pat.toList.isPrefixOf (s.toList.drop i))

/-- One row of the loaded peak table. -/
structure Peak where
  scan_number : ℤ
  mz : ℚ
  intensity : ℚ
  ms_level : ℤ
  /-- Value of the `precursor_mz` column.  It is meaningful only when the
  table actually has that column: the source guards every use with
  `'precursor_mz' in ms2_data.columns`, which we model through the
  column-name list of `DataFrame`. -/
  precursor_mz : ℚ := 0
  deriving DecidableEq, Inhabited

/-- The loaded table: its rows and its column names. -/
structure DataFrame where
  rows : List Peak
  cols : List String
  deriving DecidableEq

/-- `{"scan_number", "intensity", "ms_level", "mz"}.issubset(df.columns)`. -/
def hasRequiredCols (d : DataFrame) : Bool :=
  ["scan_number", "intensity", "ms_level", "mz"].all (fun c => d.cols.contains c)

/-- `df[df['scan_number'] == s]`. -/
def scanRows (rows : List Peak) (s : ℤ) : List Peak :=
  rows.filter (fun p => p.scan_number == s)

/-- `df[df['ms_level'] == lv]`. -/
def levelRows (rows : List Peak) (lv : ℤ) : List Peak :=
  rows.filter (fun p => p.ms_level == lv)

/-- Summed intensity of one scan (one entry of the `groupby` sum). -/
def totalIntensity (rows : List Peak) (s : ℤ) : ℚ :=
  ((scanRows rows s).map Peak.intensity).sum

/-- `df.groupby("scan_number")["intensity"].sum()` sorted by scan number:
the chromatogram as (scan number, total intensity) pairs. -/
def chromatogram (rows : List Peak) : List (ℤ × ℚ) :=
  (uniqueSorted (rows.map Peak.scan_number)).map (fun s => (s, totalIntensity rows s))

/-- One comparison step of Python `min(..., key=...)`: keep the incumbent
unless the new element is strictly closer to `n`. -/
def argStep (n best t : ℤ) : ℤ := if |t - n| < |best - n| then t else best

/-- `min(all_scans, key=lambda s: abs(s - target))`: Python `min` keeps the
first minimiser in iteration order. -/
def argminAbs (target : ℤ) : List ℤ → ℤ
  | [] => target
  | x :: xs => xs.foldl (argStep target) x

/-- The scan resolved by a chromatogram click at `x` (`on_click`, identical in
all three tabs): `round` the coordinate, keep it if present, otherwise take
the present scan nearest to the rounded value. -/
def nearest_scan (all_scans : List ℤ) (x : ℚ) : ℤ :=
  let n := pyRound x
  if all_scans.contains n then n else argminAbs n all_scans

/-- Whether scan `s` has at least one MS1 row
(`not scan_data[scan_data['ms_level'] == 1].empty`). -/
def hasMs1Peak (rows : List Peak) (s : ℤ) : Bool :=
  !(levelRows (scanRows rows s) 1).isEmpty

/-- `MS1MS2Tab.find_ms1_scan`: the first MS1 scan at or below `target`,
walking the candidate scans in descending order. -/
def find_ms1_scan (rows : List Peak) (all_scans : List ℤ) (target : ℤ) : Option ℤ :=
  let candidates := sortDesc (all_scans.filter (fun s => decide (s ≤ target)))
  candidates.find? (fun s => hasMs1Peak rows s)

/-- `{old: new for new, old in enumerate(unique_scans, 1)}` as an association
list (applied to the sorted unique scan numbers). -/
def scan_mapping (olds : List ℤ) : List (ℤ × ℤ) :=
  olds.enum.map (fun p => (p.2, (p.1 : ℤ) + 1))

/-- `df['scan_number'] = df['scan_number'].map(scan_mapping)`: every scan
number present in `rows` has an entry in the mapping, so the `getD 0`
default is never taken. -/
def renumber_scans (rows : List Peak) : List Peak :=
  let m := scan_mapping (uniqueSorted (rows.map Peak.scan_number))
  rows.map (fun p => { p with scan_number := (m.lookup p.scan_number).getD 0 })

/-- `(intensity_values / current_max_intensity) * 100` — the variable-height
(per-scan) percent scaling of a scan's intensities. -/
def intensity_percent_var (scanData : List Peak) : List ℚ :=
  let m := listMax (scanData.map Peak.intensity)
  scanData.map (fun p => p.intensity / m * 100)

/-- `(intensity_values / self.global_max_intensity) * 100` — the fixed-height
(global) percent scaling. -/
def intensity_percent_fixed (scanData : List Peak) (globalMax : ℚ) : List ℚ :=
  scanData.map (fun p => p.intensity / globalMax * 100)

/-- One matplotlib axes, abstracted to the draw state the engine controls:
its title, the vertical-line series last drawn on it, and the shaded
`axvspan` intervals currently on it.  `ax.clear()` resets all three. -/
structure Axis where
  title : String
  vlines : List (ℚ × ℚ)
  spans : List (ℚ × ℚ)
  deriving DecidableEq

/-- `safe_remove_artist` applied to a span handle: removing an artist that is
absent (already wiped by `ax.clear()`) raises and is swallowed, so the axis
is left unchanged in that case. -/
def removeSpan (ax : Axis) : Option (ℚ × ℚ) → Axis
  | none => ax
  | some v => { ax with spans := ax.spans.erase v }

inductive Key where
  | left
  | right
  deriving DecidableEq

/-- Mutable widget state of `SimpleMS1Tab` (the fields touched by the
navigation/rendering engine). -/
structure SimpleState where
  df : Option DataFrame
  current_scan : Option ℤ
  all_scans : List ℤ
  global_max_intensity : ℚ
  all_mz_min : ℚ
  all_mz_max : ℚ
  chrom : List (ℤ × ℚ)
  ax_ms1_var : Axis
  ax_ms1_fixed : Axis
  scan_line : Option ℤ
  deriving DecidableEq

/-- `SimpleMS1Tab.__init__` / `show_initial_plots`. -/
def SimpleState.init : SimpleState :=
  { df := none, current_scan := none, all_scans := [],
    global_max_intensity := 0, all_mz_min := 0, all_mz_max := 0, chrom := [],
    ax_ms1_var := ⟨"MS1 Spectrum (Variable Height)", [], []⟩,
    ax_ms1_fixed := ⟨"MS1 Spectrum (Fixed Height)", [], []⟩,
    scan_line := none }

/-- `SimpleMS1Tab.set_data`: stores a copy of the frame and enables the
process button; nothing else changes. -/
def simple_set_data (s : SimpleState) (d : DataFrame) : SimpleState :=
  { s with df := some d }

/-- `SimpleMS1Tab.update_scan`.  `self.current_scan` is assigned before the
scan rows are fetched, so it is updated even when the scan has no rows (the
method then returns early). -/
def simple_update_scan (s : SimpleState) (n : ℤ) : SimpleState :=
  match s.df with
  | none => { s with current_scan := some n }
  | some d =>
    let s0 := { s with current_scan := some n }
    let scanData := scanRows d.rows n
    if scanData.isEmpty then s0
    else
      { s0 with
        scan_line := some n,
        ax_ms1_var := ⟨"Y軸・自動補正 - Scan " ++ toString n,
          (scanData.map Peak.mz).zip (intensity_percent_var scanData), []⟩,
        ax_ms1_fixed := ⟨"Y軸・固定 - Scan " ++ toString n,
          (scanData.map Peak.mz).zip
            (intensity_percent_fixed scanData s.global_max_intensity), []⟩ }

/-- `SimpleMS1Tab.process_ms1_data`.  Faithful to the source order: the
stored frame is replaced by its MS1-filtered subset *before* the emptiness
check, so the error return on an MS1-free dataset keeps the emptied frame.
On success the scans are densely renumbered, the global maximum and the
chromatogram are computed, and the middle scan is auto-displayed. -/
def simple_process (s : SimpleState) : SimpleState :=
  match s.df with
  | none => s
  | some d =>
    if ¬ hasRequiredCols d then s
    else
      let filtered := levelRows d.rows 1
      let s1 := { s with df := some { d with rows := filtered } }
      if filtered.isEmpty then s1
      else
        let rows2 := renumber_scans filtered
        let ch := chromatogram rows2
        let scans := ch.map Prod.fst
        let mzs := rows2.map Peak.mz
        let s2 := { s1 with
          df := some { d with rows := rows2 },
          global_max_intensity := listMax (rows2.map Peak.intensity),
          chrom := ch, all_scans := scans,
          all_mz_min := listMin mzs - 10, all_mz_max := listMax mzs + 10,
          ax_ms1_var := ⟨"MS1 Spectrum (Variable Height)", [], []⟩,
          ax_ms1_fixed := ⟨"MS1 Spectrum (Fixed Height)", [], []⟩ }
        if scans.isEmpty then s2
        else simple_update_scan s2 (scans.getD (scans.length / 2) 0)

/-- `SimpleMS1Tab.keyPressEvent`.  `list.index` raises `ValueError` when the
current scan is not in the list; the uncaught exception leaves the state
unchanged, which the `contains` guard models. -/
def simple_key_press (s : SimpleState) (k : Key) : SimpleState :=
  match s.current_scan with
  | none => s
  | some c =>
    if s.all_scans.isEmpty then s
    else if ¬ s.all_scans.contains c then s
    else
      let idx := s.all_scans.indexOf c
      match k with
      | Key.left =>
        if 0 < idx then simple_update_scan s (s.all_scans.getD (idx - 1) 0) else s
      | Key.right =>
        if idx < s.all_scans.length - 1 then
          simple_update_scan s (s.all_scans.getD (idx + 1) 0)
        else s

/-- `SimpleMS1Tab.on_click` for a click landing on the chromatogram axes at
x-coordinate `x`. -/
def simple_on_click (s : SimpleState) (x : ℚ) : SimpleState :=
  match s.df with
  | none => s
  | some _ =>
    if s.all_scans.isEmpty then s
    else simple_update_scan s (nearest_scan s.all_scans x)

/-- Mutable widget state of `MS1MS2Tab`. -/
structure MS1MS2State where
  df : Option DataFrame
  current_scan : Option ℤ
  all_scans : List ℤ
  chrom_max_intensity : ℚ
  all_mz_min : ℚ
  all_mz_max : ℚ
  chrom : List (ℤ × ℚ)
  ax_ms1 : Axis
  ax_ms2 : Axis
  ms2_shading_ms1 : Option (ℚ × ℚ)
  ms2_shading_ms2 : Option (ℚ × ℚ)
  scan_line : Option ℤ
  ms1_max_intensity : ℚ
  ms2_mz_min : ℚ
  ms2_mz_max : ℚ
  deriving DecidableEq

/-- `MS1MS2Tab.__init__` / `show_initial_plots`. -/
def MS1MS2State.init : MS1MS2State :=
  { df := none, current_scan := none, all_scans := [],
    chrom_max_intensity := 0, all_mz_min := 0, all_mz_max := 0, chrom := [],
    ax_ms1 := ⟨"MS1 Spectrum", [], []⟩,
    ax_ms2 := ⟨"MS2 Spectrum", [], []⟩,
    ms2_shading_ms1 := none, ms2_shading_ms2 := none, scan_line := none,
    ms1_max_intensity := 0, ms2_mz_min := 0, ms2_mz_max := 0 }

/-- `MS1MS2Tab.set_data`. -/
def ms1ms2_set_data (s : MS1MS2State) (d : DataFrame) : MS1MS2State :=
  { s with df := some d }

/-- `MS1MS2Tab.process_data`: builds the chromatogram and scan list, fixes
the m/z display range from the MS1 subset (or the whole table when there is
none), and resets both spectrum axes via `setup_spectrum_plots`. -/
def ms1ms2_process (s : MS1MS2State) : MS1MS2State :=
  match s.df with
  | none => s
  | some d =>
    if ¬ hasRequiredCols d then s
    else
      let ch := chromatogram d.rows
      let ms1 := levelRows d.rows 1
      let mzSource := if ms1.isEmpty then d.rows else ms1
      { s with
        chrom := ch, all_scans := ch.map Prod.fst,
        chrom_max_intensity := listMax (ch.map Prod.snd) * (105/100),
        all_mz_min := listMin (mzSource.map Peak.mz) - 10,
        all_mz_max := listMax (mzSource.map Peak.mz) + 10,
        ax_ms1 := ⟨"MS1 Spectrum", [], []⟩,
        ax_ms2 := ⟨"MS2 Spectrum", [], []⟩ }

/-- `MS1MS2Tab.update_scan` (the handler actually reached from clicks and
key presses).  The MS1 axes are redrawn only when the clicked scan itself
has MS1 rows; the MS2 axes only when it has MS2 rows; the precursor bands
follow, guarded by the presence of the `precursor_mz` column and, for the
MS1 band, by the title test on the MS1 axes. -/
def ms1ms2_update_scan (s : MS1MS2State) (n : ℤ) : MS1MS2State :=
  match s.df with
  | none => { s with current_scan := some n }
  | some d =>
    let s0 := { s with current_scan := some n, scan_line := some n }
    let specData := scanRows d.rows n
    let ms1Data := levelRows specData 1
    let ms2Data := levelRows specData 2
    let s1 :=
      if ms1Data.isEmpty then s0
      else
        { s0 with
          ms2_shading_ms1 := none,
          ms1_max_intensity := listMax (ms1Data.map Peak.intensity) / 10,
          ax_ms1 := ⟨"MS1 Spectrum - Scan " ++ toString n,
                     ms1Data.map (fun p => (p.mz, p.intensity)), []⟩ }
    if ms2Data.isEmpty then s1
    else
      let s2 := { s1 with
        ms2_shading_ms2 := none,
        ms2_mz_min := listMin (ms2Data.map Peak.mz) - 10,
        ms2_mz_max := listMax (ms2Data.map Peak.mz) + 10,
        ax_ms2 := ⟨"MS2 Spectrum - Scan " ++ toString n,
                   ms2Data.map (fun p => (p.mz, p.intensity)), []⟩ }
      if d.cols.contains "precursor_mz" then
        let pmz := (ms2Data.headD default).precursor_mz
        let mzMin := pmz - 1.5
        let mzMax := pmz + 1.5
        let band2 := (mzMin + 1.45, mzMax - 1.45)
        let s3 := { s2 with
          ax_ms2 := { s2.ax_ms2 with spans := s2.ax_ms2.spans ++ [band2] },
          ms2_shading_ms2 := some band2 }
        if s3.ax_ms1.title ≠ "" ∧ ¬ strContains s3.ax_ms1.title "No MS1 data" then
          { s3 with
            ax_ms1 := { s3.ax_ms1 with spans := s3.ax_ms1.spans ++ [(mzMin, mzMax)] },
            ms2_shading_ms1 := some (mzMin, mzMax) }
        else s3
      else s2

/-- `MS1MS2Tab.keyPressEvent`. -/
def ms1ms2_key_press (s : MS1MS2State) (k : Key) : MS1MS2State :=
  match s.current_scan with
  | none => s
  | some c =>
    if s.all_scans.isEmpty then s
    else if ¬ s.all_scans.contains c then s
    else
      let idx := s.all_scans.indexOf c
      match k with
      | Key.left =>
        if 0 < idx then ms1ms2_update_scan s (s.all_scans.getD (idx - 1) 0) else s
      | Key.right =>
        if idx < s.all_scans.length - 1 then
          ms1ms2_update_scan s (s.all_scans.getD (idx + 1) 0)
        else s

/-- `MS1MS2Tab.on_click` for a click landing on the chromatogram axes. -/
def ms1ms2_on_click (s : MS1MS2State) (x : ℚ) : MS1MS2State :=
  match s.df with
  | none => s
  | some _ =>
    if s.all_scans.isEmpty then s
    else ms1ms2_update_scan s (nearest_scan s.all_scans x)


/-! ### Concrete datasets used by the end-to-end and example claims -/

/-- Table with scans 1 (MS1), 2 (MS2, precursor_mz = 500.0) and 3 (MS1). -/
def exDf : DataFrame :=
  ⟨[⟨1, 100, 10, 1, 0⟩, ⟨1, 101, 20, 1, 0⟩,
    ⟨2, 150, 5, 2, 500⟩, ⟨2, 160, 7, 2, 500⟩,
    ⟨3, 110, 8, 1, 0⟩],
   ["scan_number", "mz", "intensity", "ms_level", "precursor_mz"]⟩

/-- The MS1/MS2 tab right after loading and processing `exDf`. -/
def exProcessed : MS1MS2State := ms1ms2_process (ms1ms2_set_data MS1MS2State.init exDf)

/-- The MS1/MS2 tab after the chromatogram click at x = 2.3. -/
def exClicked : MS1MS2State := ms1ms2_on_click exProcessed (23/10)

/-- Table with the required columns but no MS1 rows. -/
def exC2df : DataFrame :=
  ⟨[⟨1, 100, 10, 2, 500⟩],
   ["scan_number", "mz", "intensity", "ms_level", "precursor_mz"]⟩

/-- A viewer holding `exC2df` together with leftover navigation state. -/
def exC2state : SimpleState :=
  { SimpleState.init with df := some exC2df, current_scan := some 7, all_scans := [7] }

def exC4simple : SimpleState := { SimpleState.init with current_scan := some 5 }

def exC4tab : MS1MS2State := { MS1MS2State.init with current_scan := some 5 }

/-- Scans 40 (MS1), 41 (MS2), 42 (MS2). -/
def exC6rows : List Peak :=
  [⟨40, 100, 1, 1, 0⟩, ⟨41, 150, 1, 2, 450⟩, ⟨42, 160, 1, 2, 450⟩]

/-- An all-MS2 dataset over the same scans. -/
def exC6ms2Rows : List Peak :=
  [⟨40, 150, 1, 2, 450⟩, ⟨41, 151, 1, 2, 450⟩, ⟨42, 152, 1, 2, 450⟩]

/-- Rows whose scan-number column is [5, 5, 9, 9, 9, 20]. -/
def exC7rows : List Peak :=
  [⟨5, 100, 1, 1, 0⟩, ⟨5, 101, 2, 1, 0⟩, ⟨9, 102, 3, 1, 0⟩,
   ⟨9, 103, 4, 1, 0⟩, ⟨9, 104, 5, 1, 0⟩, ⟨20, 105, 6, 1, 0⟩]

def exC8rows : List Peak := [⟨1, 100, 5, 1, 0⟩, ⟨1, 101, 10, 1, 0⟩]

def exC9simpleA : SimpleState :=
  { SimpleState.init with all_scans := [1, 2], current_scan := some 1 }

def exC9simpleB : SimpleState :=
  { SimpleState.init with all_scans := [1, 2], current_scan := some 2 }

def exC9tabA : MS1MS2State :=
  { MS1MS2State.init with all_scans := [1, 2], current_scan := some 1 }

def exC9tabB : MS1MS2State :=
  { MS1MS2State.init with all_scans := [1, 2], current_scan := some 2 }

/-- Title shown on the MS1 axes at the moment `update_scan` evaluates its
precursor-highlight guard: the scan's own title when the clicked scan has MS1
rows, the previous title otherwise. -/
def ms1TitleAfter (s : MS1MS2State) (d : DataFrame) (n : ℤ) : String :=
  if (levelRows (scanRows d.rows n) 1).isEmpty then s.ax_ms1.title
  else "MS1 Spectrum - Scan " ++ toString n

section MainTheorems

attribute [local semireducible] Rat.add Rat.mul Rat.sub Rat.inv Rat.ofScientific

/-! ### Lemmas about the sorting helpers -/

theorem insertAsc_perm (x : ℤ) (l : List ℤ) : List.Perm (insertAsc x l) (x :: l) := by
  induction l with
  | nil => simp [insertAsc]
  | cons y ys ih =>
    by_cases h : x ≤ y
    · simp [insertAsc, h]
    · simp only [insertAsc, if_neg h]
      exact (ih.cons y).trans (List.Perm.swap x y ys)

theorem mem_insertAsc {a x : ℤ} {l : List ℤ} :
    a ∈ insertAsc x l ↔ a = x ∨ a ∈ l := by
  rw [(insertAsc_perm x l).mem_iff, List.mem_cons]

theorem sorted_insertAsc (x : ℤ) {l : List ℤ} (h : l.Sorted (· ≤ ·)) :
    (insertAsc x l).Sorted (· ≤ ·) := by
  induction l with
  | nil => simp [insertAsc]
  | cons y ys ih =>
    rw [List.sorted_cons] at h
    by_cases hxy : x ≤ y
    · simp only [insertAsc, if_pos hxy, List.sorted_cons]
      refine ⟨fun b hb => ?_, h⟩
      rcases List.mem_cons.mp hb with rfl | hb
      · exact hxy
      · exact hxy.trans (h.1 b hb)
    · simp only [insertAsc, if_neg hxy, List.sorted_cons]
      refine ⟨fun b hb => ?_, ih h.2⟩
      rcases mem_insertAsc.mp hb with rfl | hb
      · exact le_of_not_le hxy
      · exact h.1 b hb

theorem sortAsc_perm (l : List ℤ) : List.Perm (sortAsc l) l := by
  induction l with
  | nil => exact List.Perm.refl _
  | cons x xs ih => exact (insertAsc_perm x (sortAsc xs)).trans (ih.cons x)

theorem sortAsc_sorted (l : List ℤ) : (sortAsc l).Sorted (· ≤ ·) := by
  induction l with
  | nil => simp [sortAsc]
  | cons x xs ih => exact sorted_insertAsc x ih

theorem mem_uniqueSorted {a : ℤ} {l : List ℤ} :
    a ∈ uniqueSorted l ↔ a ∈ l := by
  rw [uniqueSorted, (sortAsc_perm l.dedup).mem_iff, List.mem_dedup]

theorem uniqueSorted_nodup (l : List ℤ) : (uniqueSorted l).Nodup :=
  (sortAsc_perm l.dedup).nodup_iff.mpr l.nodup_dedup

theorem uniqueSorted_sorted (l : List ℤ) : (uniqueSorted l).Sorted (· ≤ ·) :=
  sortAsc_sorted l.dedup

theorem uniqueSorted_sorted_lt (l : List ℤ) : (uniqueSorted l).Sorted (· < ·) := by
  have h1 := uniqueSorted_sorted l
  have h2 := uniqueSorted_nodup l
  rw [List.Sorted] at h1 ⊢
  rw [List.Nodup] at h2
  exact (h1.and h2).imp (fun h => lt_of_le_of_ne h.1 h.2)

theorem sortDesc_pairwise (l : List ℤ) :
    (sortDesc l).Pairwise (fun a b => b ≤ a) := by
  rw [sortDesc, List.pairwise_reverse]
  exact sortAsc_sorted l

theorem mem_sortDesc {a : ℤ} {l : List ℤ} : a ∈ sortDesc l ↔ a ∈ l := by
  rw [sortDesc, List.mem_reverse, (sortAsc_perm l).mem_iff]

/-! ### Lemmas about the leftmost-minimiser fold behind `nearest_scan` -/

theorem argStep_cases (n b x : ℤ) : argStep n b x = x ∨ argStep n b x = b := by
  unfold argStep; split
  · exact Or.inl rfl
  · exact Or.inr rfl

theorem argStep_le_left (n b x : ℤ) : |argStep n b x - n| ≤ |b - n| := by
  unfold argStep; split
  · exact le_of_lt (by assumption)
  · exact le_refl _

theorem argStep_le_right (n b x : ℤ) : |argStep n b x - n| ≤ |x - n| := by
  unfold argStep; split
  · exact le_refl _
  · exact le_of_not_lt (by assumption)

theorem argStep_foldl_mem (n : ℤ) (l : List ℤ) :
    ∀ b, l.foldl (argStep n) b = b ∨ l.foldl (argStep n) b ∈ l := by
  induction l with
  | nil => intro b; exact Or.inl rfl
  | cons x xs ih =>
    intro b
    rw [List.foldl_cons]
    rcases ih (argStep n b x) with h | h
    · rw [h]
      rcases argStep_cases n b x with h2 | h2 <;> rw [h2]
      · exact Or.inr (List.mem_cons_self x xs)
      · exact Or.inl rfl
    · exact Or.inr (List.mem_cons_of_mem x h)

theorem argStep_foldl_min (n : ℤ) (l : List ℤ) :
    ∀ b, |l.foldl (argStep n) b - n| ≤ |b - n| ∧
      ∀ t ∈ l, |l.foldl (argStep n) b - n| ≤ |t - n| := by
  induction l with
  | nil =>
    intro b
    exact ⟨le_refl _, by simp⟩
  | cons x xs ih =>
    intro b
    rw [List.foldl_cons]
    obtain ⟨h1, h2⟩ := ih (argStep n b x)
    refine ⟨h1.trans (argStep_le_left n b x), ?_⟩
    intro t ht
    rcases List.mem_cons.mp ht with rfl | ht2
    · exact h1.trans (argStep_le_right n b t)
    · exact h2 t ht2

theorem argStep_foldl_strict (n : ℤ) (l : List ℤ) :
    ∀ b, l.foldl (argStep n) b = b ∨
      (l.foldl (argStep n) b ∈ l ∧ |l.foldl (argStep n) b - n| < |b - n|) := by
  induction l with
  | nil => intro b; exact Or.inl rfl
  | cons x xs ih =>
    intro b
    rw [List.foldl_cons]
    rcases ih (argStep n b x) with h | ⟨hmem, hlt⟩
    · rw [h]
      unfold argStep; split
      · exact Or.inr ⟨List.mem_cons_self x xs, by assumption⟩
      · exact Or.inl rfl
    · exact Or.inr ⟨List.mem_cons_of_mem x hmem,
        lt_of_lt_of_le hlt (argStep_le_left n b x)⟩

theorem argStep_foldl_tie (n : ℤ) (l : List ℤ) (hs : l.Sorted (· ≤ ·)) :
    ∀ b, (∀ u ∈ l, b ≤ u) → ∀ t, (t = b ∨ t ∈ l) →
      |t - n| = |l.foldl (argStep n) b - n| → l.foldl (argStep n) b ≤ t := by
  induction l with
  | nil =>
    intro b _ t ht _
    rcases ht with rfl | h
    · exact le_refl _
    · exact absurd h (List.not_mem_nil t)
  | cons x xs ih =>
    intro b hb t ht heq
    rw [List.foldl_cons] at heq ⊢
    have hsx := List.sorted_cons.mp hs
    have hb2 : ∀ u ∈ xs, argStep n b x ≤ u := by
      intro u hu
      rcases argStep_cases n b x with h2 | h2 <;> rw [h2]
      · exact hsx.1 u hu
      · exact hb u (List.mem_cons_of_mem x hu)
    rcases ht with hteq | htm
    · -- t is the initial element b
      rw [hteq] at heq ⊢
      rcases argStep_foldl_strict n xs (argStep n b x) with h | ⟨_, hlt⟩
      · rw [h] at heq ⊢
        unfold argStep at heq ⊢; split at heq
        · rename_i hcl
          exact absurd heq.symm (ne_of_lt hcl)
        · rename_i hcl
          rw [if_neg hcl]
      · exact absurd heq (ne_of_gt (lt_of_lt_of_le hlt (argStep_le_left n b x)))
    · rcases List.mem_cons.mp htm with hteq | htm2
      · -- t is the head x
        rw [hteq] at heq ⊢
        rcases argStep_foldl_strict n xs (argStep n b x) with h | ⟨_, hlt⟩
        · rw [h] at heq ⊢
          rcases argStep_cases n b x with h2 | h2 <;> rw [h2]
          exact hb x (List.mem_cons_self x xs)
        · exact absurd heq
            (ne_of_gt (lt_of_lt_of_le hlt (argStep_le_right n b x)))
      · exact ih hsx.2 (argStep n b x) hb2 t (Or.inr htm2) heq

theorem pyRound_intCast (k : ℤ) : pyRound (k : ℚ) = k := by
  unfold pyRound
  norm_num

theorem contains_iff_mem {l : List ℤ} {a : ℤ} : l.contains a = true ↔ a ∈ l := by
  simp [List.contains]

theorem argminAbs_mem (n : ℤ) (scans : List ℤ) (h : scans ≠ []) :
    argminAbs n scans ∈ scans := by
  match scans, h with
  | y :: ys, _ =>
    rcases argStep_foldl_mem n ys y with h2 | h2
    · rw [argminAbs, h2]; exact List.mem_cons_self y ys
    · rw [argminAbs]; exact List.mem_cons_of_mem y h2

theorem argminAbs_min (n : ℤ) (scans : List ℤ) (h : scans ≠ []) :
    ∀ t ∈ scans, |argminAbs n scans - n| ≤ |t - n| := by
  match scans, h with
  | y :: ys, _ =>
    intro t ht
    rw [argminAbs]
    rcases List.mem_cons.mp ht with hteq | ht2
    · rw [hteq]; exact (argStep_foldl_min n ys y).1
    · exact (argStep_foldl_min n ys y).2 t ht2

theorem argminAbs_tie (n : ℤ) (scans : List ℤ) (h : scans ≠ [])
    (hsort : scans.Sorted (· ≤ ·)) :
    ∀ t ∈ scans, |t - n| = |argminAbs n scans - n| → argminAbs n scans ≤ t := by
  match scans, h with
  | y :: ys, _ =>
    intro t ht heq
    rw [argminAbs] at heq ⊢
    have hsy := List.sorted_cons.mp hsort
    exact argStep_foldl_tie n ys hsy.2 y hsy.1 t
      ((List.mem_cons.mp ht).symm.imp id id).symm heq

theorem nearest_scan_not_contains (scans : List ℤ) (x : ℚ)
    (hnp : ¬ (pyRound x) ∈ scans) :
    nearest_scan scans x = argminAbs (pyRound x) scans := by
  simp only [nearest_scan]
  rw [if_neg (fun hc => hnp (contains_iff_mem.mp hc))]

theorem nearest_scan_contains (scans : List ℤ) (x : ℚ)
    (hp : (pyRound x) ∈ scans) :
    nearest_scan scans x = pyRound x := by
  simp only [nearest_scan]
  rw [if_pos (contains_iff_mem.mpr hp)]

theorem nearest_scan_mem (scans : List ℤ) (x : ℚ) (h : scans ≠ []) :
    nearest_scan scans x ∈ scans := by
  by_cases hp : (pyRound x) ∈ scans
  · rw [nearest_scan_contains scans x hp]; exact hp
  · rw [nearest_scan_not_contains scans x hp]; exact argminAbs_mem _ scans h

/-! ### First-satisfier-is-greatest on descending lists (for `find_ms1_scan`) -/

theorem find_desc_greatest (p : ℤ → Bool) (l : List ℤ)
    (hl : l.Pairwise (fun a b => b ≤ a)) :
    ∀ s, l.find? p = some s → s ∈ l ∧ p s = true ∧ ∀ t ∈ l, p t = true → t ≤ s := by
  induction l with
  | nil => intro s h; simp at h
  | cons x xs ih =>
    intro s h
    have hx := List.pairwise_cons.mp hl
    by_cases hp : p x = true
    · rw [List.find?_cons_of_pos _ hp] at h
      obtain rfl : x = s := by injection h
      refine ⟨List.mem_cons_self _ _, hp, fun t ht _ => ?_⟩
      rcases List.mem_cons.mp ht with rfl | ht2
      · exact le_refl _
      · exact hx.1 t ht2
    · rw [List.find?_cons_of_neg _ (by simpa using hp)] at h
      obtain ⟨hmem, hps, hmax⟩ := ih hx.2 s h
      refine ⟨List.mem_cons_of_mem x hmem, hps, fun t ht hpt => ?_⟩
      rcases List.mem_cons.mp ht with rfl | ht2
      · exact absurd hpt hp
      · exact hmax t ht2 hpt

/-! ### Lemmas about the dense renumbering (for the `scan_mapping` claims) -/

theorem enumFrom_map_length (olds : List ℤ) (k : ℕ) :
    ((olds.enumFrom k).map (fun p => (p.2, (p.1 : ℤ) + 1))).length = olds.length := by
  rw [List.length_map, List.enumFrom_length]

theorem scan_mapping_length (olds : List ℤ) :
    (scan_mapping olds).length = olds.length :=
  enumFrom_map_length olds 0

theorem enumFrom_map_get? (olds : List ℤ) :
    ∀ (k i : ℕ),
      ((olds.enumFrom k).map (fun p => (p.2, (p.1 : ℤ) + 1))).get? i
        = (olds.get? i).map (fun v => (v, (i : ℤ) + (k : ℤ) + 1)) := by
  induction olds with
  | nil => intro k i; simp [List.enumFrom]
  | cons x xs ih =>
    intro k i
    rw [List.enumFrom_cons, List.map_cons]
    cases i with
    | zero => simp
    | succ j =>
      rw [List.get?_cons_succ, List.get?_cons_succ, ih (k + 1) j]
      cases h : xs.get? j with
      | none => simp
      | some v =>
        simp only [Option.map_some']
        congr 1
        push_cast
        ring_nf

theorem scan_mapping_get? (olds : List ℤ) (i : ℕ) :
    (scan_mapping olds).get? i = (olds.get? i).map (fun v => (v, (i : ℤ) + 1)) := by
  rw [scan_mapping, show olds.enum = olds.enumFrom 0 from rfl, enumFrom_map_get? olds 0 i]
  norm_num

theorem lookup_enumFrom_map (olds : List ℤ) :
    ∀ (k : ℕ) (s : ℤ), s ∈ olds →
      ((olds.enumFrom k).map (fun p => (p.2, (p.1 : ℤ) + 1))).lookup s
        = some ((olds.indexOf s : ℤ) + (k : ℤ) + 1) := by
  induction olds with
  | nil => intro k s hs; exact absurd hs (List.not_mem_nil s)
  | cons x xs ih =>
    intro k s hs
    rw [List.enumFrom_cons, List.map_cons]
    by_cases hsx : s = x
    · subst hsx
      rw [List.indexOf_cons_self]
      simp [List.lookup]
    · have hs2 : s ∈ xs := (List.mem_cons.mp hs).resolve_left hsx
      have hne : x ≠ s := fun h => hsx h.symm
      rw [List.indexOf_cons_ne _ hne]
      simp only [List.lookup_cons, beq_false_of_ne hsx]
      rw [ih (k + 1) s hs2]
      congr 1
      push_cast
      ring

theorem lookup_scan_mapping (olds : List ℤ) (s : ℤ) (hs : s ∈ olds) :
    (scan_mapping olds).lookup s = some ((olds.indexOf s : ℤ) + 1) := by
  have h := lookup_enumFrom_map olds 0 s hs
  rw [scan_mapping, show olds.enum = olds.enumFrom 0 from rfl, h]
  norm_num

/-! ### Indexing helpers (for the key-navigation and scaling claims) -/

theorem getD_map_fn (f : Peak → ℚ) :
    ∀ (l : List Peak) (i : ℕ), i < l.length →
      ∀ dflt, (l.map f).getD i dflt = f (l.getD i default) := by
  intro l
  induction l with
  | nil => intro i hi; exact absurd hi (Nat.not_lt_zero i)
  | cons x xs ih =>
    intro i hi dflt
    cases i with
    | zero => simp
    | succ j =>
      rw [List.map_cons, List.getD_cons_succ, List.getD_cons_succ]
      exact ih j (Nat.lt_of_succ_lt_succ hi) dflt

theorem indexOf_of_head (l : List ℤ) (c : ℤ) (h : l.head? = some c) :
    l.indexOf c = 0 := by
  cases l with
  | nil => simp at h
  | cons x xs =>
    obtain rfl : x = c := by simpa using h
    exact List.indexOf_cons_self x xs

theorem mem_of_head (l : List ℤ) (c : ℤ) (h : l.head? = some c) : c ∈ l :=
  List.mem_of_mem_head? (Option.mem_def.mpr h)

theorem mem_of_getLast (l : List ℤ) (c : ℤ) (h : l.getLast? = some c) : c ∈ l := by
  obtain ⟨hne, heq⟩ := List.mem_getLast?_eq_getLast (Option.mem_def.mpr h)
  rw [heq]
  exact List.getLast_mem hne

theorem indexOf_of_getLast (l : List ℤ) (c : ℤ) (hn : l.Nodup)
    (h : l.getLast? = some c) : l.indexOf c = l.length - 1 := by
  induction l with
  | nil => simp at h
  | cons x xs ih =>
    cases xs with
    | nil =>
      obtain rfl : x = c := by simpa using h
      simp [List.indexOf_cons_self]
    | cons y ys =>
      rw [List.getLast?_cons_cons] at h
      have hc : c ∈ y :: ys := mem_of_getLast (y :: ys) c h
      have hxc : x ≠ c := fun he => (List.nodup_cons.mp hn).1 (he ▸ hc)
      rw [List.indexOf_cons_ne _ hxc, ih (List.nodup_cons.mp hn).2 h]
      simp only [List.length_cons]
      omega


/-! ### Claim theorems -/

/-- Claim C4 (counterexample): `set_data` does NOT reset `current_scan` to
none — a viewer whose current scan is 5 still has current scan 5 after a new
table is set, in both the simple-MS1 tab and the MS1/MS2 tab. -/
theorem claim_C4_counterexample :
    (simple_set_data exC4simple exDf).current_scan = some 5 ∧
    (simple_set_data exC4simple exDf).current_scan ≠ none ∧
    (ms1ms2_set_data exC4tab exDf).current_scan = some 5 ∧
    (ms1ms2_set_data exC4tab exDf).current_scan ≠ none := by
  refine ⟨rfl, by decide, rfl, by decide⟩

/-- Claim C4 (amended): for every viewer and every new peak table,
`set_data` stores the new table and leaves `current_scan` (and the scan
list) unchanged; `current_scan` is not reset. -/
theorem claim_C4 (s : SimpleState) (t : MS1MS2State) (d : DataFrame) :
    (simple_set_data s d).current_scan = s.current_scan ∧
    (simple_set_data s d).df = some d ∧
    (simple_set_data s d).all_scans = s.all_scans ∧
    (ms1ms2_set_data t d).current_scan = t.current_scan ∧
    (ms1ms2_set_data t d).df = some d ∧
    (ms1ms2_set_data t d).all_scans = t.all_scans :=
  ⟨rfl, rfl, rfl, rfl, rfl, rfl⟩

/-- Claim C8: the variable-per-scan scaling `(intensity / max) * 100`
applied to a scan's own maximum-intensity peak yields exactly 100 whenever
that maximum is positive. -/
theorem claim_C8 (d : List Peak) (i : ℕ) (hi : i < d.length)
    (hmax : (d.getD i default).intensity = listMax (d.map Peak.intensity))
    (hpos : 0 < (d.getD i default).intensity) :
    (intensity_percent_var d).getD i 0 = 100 := by
  unfold intensity_percent_var
  rw [getD_map_fn _ d i hi 0, ← hmax, div_self (ne_of_gt hpos), one_mul]

/-- Claim C8 witness at the two-peak scan `exC8rows`, whose second peak is
its maximum. -/
theorem claim_C8_witness : (intensity_percent_var exC8rows).getD 1 0 = 100 :=
  claim_C8 exC8rows 1 (by decide) (by decide) (by decide)

/-- Claim C10: for every click x-coordinate and non-empty scan list, the
scan resolved by `on_click` is an element of the scan list, and that
resolved scan is exactly what `on_click` passes to `update_scan` in both
tabs. -/
theorem claim_C10 (scans : List ℤ) (x : ℚ) (h : scans ≠ []) :
    nearest_scan scans x ∈ scans ∧
    (∀ (s : SimpleState) (d : DataFrame), s.df = some d → s.all_scans = scans →
        simple_on_click s x = simple_update_scan s (nearest_scan scans x)) ∧
    (∀ (u : MS1MS2State) (d : DataFrame), u.df = some d → u.all_scans = scans →
        ms1ms2_on_click u x = ms1ms2_update_scan u (nearest_scan scans x)) := by
  refine ⟨nearest_scan_mem scans x h, ?_, ?_⟩
  · intro s d hdf hsc
    simp only [simple_on_click, hdf]
    rw [hsc, if_neg (by simp [List.isEmpty_iff, h])]
  · intro u d hdf hsc
    simp only [ms1ms2_on_click, hdf]
    rw [hsc, if_neg (by simp [List.isEmpty_iff, h])]

/-- Claim C10 witness on the scan list [1, 2, 3] with a click at 2.3. -/
theorem claim_C10_witness : nearest_scan [1, 2, 3] (23/10) ∈ [1, 2, 3] :=
  (claim_C10 [1, 2, 3] (23/10) (by simp)).1

/-- Claim C3 (counterexample): with present scans [1, 3] and a click at
x = 2.3, scan 3 is strictly closer to x than scan 1, yet `nearest_scan`
returns 1 — the fallback minimises the distance to `round(x) = 2` (where 1
and 3 tie and the first, smaller one wins), not the distance to x as the
claim states. -/
theorem claim_C3_counterexample :
    nearest_scan [1, 3] (23/10) = 1 ∧
    |(3 : ℚ) - 23/10| < |(1 : ℚ) - 23/10| := by
  constructor
  · decide
  · rw [abs_of_pos (by norm_num), abs_of_neg (by norm_num)]
    norm_num

/-- Claim C3 (amended): `nearest_scan` rounds x (half to even); a present
rounded value is returned directly (in particular x equal to a present scan
returns that scan); otherwise the present scan with minimum absolute
distance TO THE ROUNDED INTEGER is returned, ties going to the smaller
(first in ascending order) scan. -/
theorem claim_C3 (scans : List ℤ) (x : ℚ) (h : scans ≠ [])
    (hsort : scans.Sorted (· ≤ ·)) :
    (∀ k : ℤ, k ∈ scans → nearest_scan scans (k : ℚ) = k) ∧
    (pyRound x ∈ scans → nearest_scan scans x = pyRound x) ∧
    nearest_scan scans x ∈ scans ∧
    (pyRound x ∉ scans →
      (∀ t ∈ scans, |nearest_scan scans x - pyRound x| ≤ |t - pyRound x|) ∧
      (∀ t ∈ scans, |t - pyRound x| = |nearest_scan scans x - pyRound x| →
        nearest_scan scans x ≤ t)) := by
  refine ⟨?_, ?_, nearest_scan_mem scans x h, ?_⟩
  · intro k hk
    rw [nearest_scan_contains scans (k : ℚ) (by rw [pyRound_intCast]; exact hk),
      pyRound_intCast]
  · exact nearest_scan_contains scans x
  · intro hnp
    constructor
    · intro t ht
      rw [nearest_scan_not_contains scans x hnp]
      exact argminAbs_min (pyRound x) scans h t ht
    · intro t ht heq
      rw [nearest_scan_not_contains scans x hnp] at heq ⊢
      exact argminAbs_tie (pyRound x) scans h hsort t ht heq

/-- Claim C3 witness: the amended behaviour at scans [1, 3], x = 2.3. -/
theorem claim_C3_witness :
    nearest_scan [1, 3] (23/10) ∈ [1, 3] ∧ nearest_scan [1, 3] (3 : ℚ) = 3 := by
  have h := claim_C3 [1, 3] (23/10) (by simp) (by simp)
  exact ⟨h.2.2.1, (claim_C3 [1, 3] (3 : ℚ) (by simp) (by simp)).1 3 (by simp)⟩


/-- Claim C6: `find_ms1_scan` (the source's `previous_scan_at_level`, which
implements level 1) returns the first scan at or before `target`, walking
backward, that has MS1 peaks — equivalently the greatest such scan — and
none when no scan at or before `target` has MS1 peaks; in particular over
scans [40 (MS1), 41 (MS2), 42 (MS2)] it returns 40 for target 42, and over
an all-MS2 dataset it returns none. -/
theorem claim_C6 (rows : List Peak) (scans : List ℤ) (target : ℤ) :
    (∀ s, find_ms1_scan rows scans target = some s →
        s ∈ scans ∧ s ≤ target ∧ hasMs1Peak rows s = true ∧
        ∀ t ∈ scans, t ≤ target → hasMs1Peak rows t = true → t ≤ s) ∧
    (find_ms1_scan rows scans target = none ↔
        ∀ t ∈ scans, t ≤ target → hasMs1Peak rows t = false) ∧
    find_ms1_scan exC6rows [40, 41, 42] 42 = some 40 ∧
    find_ms1_scan exC6ms2Rows [40, 41, 42] 42 = none := by
  have hmemc : ∀ a : ℤ,
      a ∈ sortDesc (scans.filter (fun s => decide (s ≤ target))) ↔
        (a ∈ scans ∧ a ≤ target) := by
    intro a
    rw [mem_sortDesc, List.mem_filter, decide_eq_true_eq]
  refine ⟨?_, ?_, by decide, by decide⟩
  · intro s hfind
    unfold find_ms1_scan at hfind
    obtain ⟨hmem, hp, hmax⟩ :=
      find_desc_greatest (fun s => hasMs1Peak rows s) _ (sortDesc_pairwise _) s hfind
    obtain ⟨h1, h2⟩ := (hmemc s).mp hmem
    exact ⟨h1, h2, hp, fun t ht hle hms => hmax t ((hmemc t).mpr ⟨ht, hle⟩) hms⟩
  · unfold find_ms1_scan
    rw [List.find?_eq_none]
    constructor
    · intro hnone t ht hle
      have := hnone t ((hmemc t).mpr ⟨ht, hle⟩)
      simpa using this
    · intro hall t htc
      obtain ⟨h1, h2⟩ := (hmemc t).mp htc
      simp [hall t h1 h2]

/-- Claim C6 witness: the backward search over [40, 41, 42] from 42 finds
40, and 40 is indeed the greatest MS1 scan at or before 42. -/
theorem claim_C6_witness :
    find_ms1_scan exC6rows [40, 41, 42] 42 = some 40 ∧
    (40 ∈ [(40 : ℤ), 41, 42] ∧ (40 : ℤ) ≤ 42 ∧ hasMs1Peak exC6rows 40 = true ∧
      ∀ t ∈ [(40 : ℤ), 41, 42], t ≤ 42 → hasMs1Peak exC6rows t = true → t ≤ 40) := by
  have h := claim_C6 exC6rows [40, 41, 42] 42
  exact ⟨h.2.2.1, h.1 40 h.2.2.1⟩

/-- Claim C2 (counterexample): on a dataset with the required columns but no
MS1 rows, `process_ms1_data` aborts with the "no MS1 data" error but has
already replaced the stored table by the empty filtered subset: the prior
`current_scan` and scan list survive, the stored peak table does not. -/
theorem claim_C2_counterexample :
    hasRequiredCols exC2df = true ∧
    exC2df.rows ≠ [] ∧
    (levelRows exC2df.rows 1).isEmpty = true ∧
    (simple_process exC2state).current_scan = exC2state.current_scan ∧
    (simple_process exC2state).all_scans = exC2state.all_scans ∧
    (simple_process exC2state).df ≠ exC2state.df := by
  decide

/-- Claim C2 (amended): a `process_ms1_data` call that fails the emptiness
check (required columns present, level-filtered subset empty) leaves
`current_scan`, the scan list and all rendering state intact but replaces
the stored peak table with the empty filtered subset. -/
theorem claim_C2 (s : SimpleState) (d : DataFrame) (h1 : s.df = some d)
    (h2 : hasRequiredCols d = true) (h3 : levelRows d.rows 1 = []) :
    simple_process s = { s with df := some { d with rows := [] } } := by
  simp [simple_process, h1, h2, h3]

/-- Claim C2 witness: the amended behaviour on the concrete MS1-free
dataset. -/
theorem claim_C2_witness :
    simple_process exC2state = { exC2state with df := some { exC2df with rows := [] } } :=
  claim_C2 exC2state exC2df rfl (by decide) (by decide)


/-- Claim C9: pressing "left" with the current scan first in the ordered
scan list — and "right" with it last — is a no-op in both tabs: the whole
viewer state is returned unchanged, with no wraparound. -/
theorem claim_C9 (s t : SimpleState) (u v : MS1MS2State)
    (hs1 : s.current_scan ≠ none) (hs2 : s.current_scan = s.all_scans.head?)
    (ht1 : t.current_scan ≠ none) (ht2 : t.current_scan = t.all_scans.getLast?)
    (ht3 : t.all_scans.Nodup)
    (hu1 : u.current_scan ≠ none) (hu2 : u.current_scan = u.all_scans.head?)
    (hv1 : v.current_scan ≠ none) (hv2 : v.current_scan = v.all_scans.getLast?)
    (hv3 : v.all_scans.Nodup) :
    simple_key_press s Key.left = s ∧ simple_key_press t Key.right = t ∧
    ms1ms2_key_press u Key.left = u ∧ ms1ms2_key_press v Key.right = v := by
  refine ⟨?_, ?_, ?_, ?_⟩
  · obtain ⟨c, hc⟩ := Option.ne_none_iff_exists'.mp hs1
    rw [hc] at hs2
    have hh : s.all_scans.head? = some c := hs2.symm
    have hne : s.all_scans ≠ [] := by
      intro he; rw [he] at hh; exact Option.noConfusion hh
    have hmem : c ∈ s.all_scans := mem_of_head _ _ hh
    simp only [simple_key_press, hc]
    rw [if_neg (by simp [List.isEmpty_iff, hne]),
      if_neg (not_not_intro (contains_iff_mem.mpr hmem)),
      indexOf_of_head _ _ hh]
    simp
  · obtain ⟨c, hc⟩ := Option.ne_none_iff_exists'.mp ht1
    rw [hc] at ht2
    have hh : t.all_scans.getLast? = some c := ht2.symm
    have hne : t.all_scans ≠ [] := by
      intro he; rw [he] at hh; exact Option.noConfusion hh
    have hmem : c ∈ t.all_scans := mem_of_getLast _ _ hh
    simp only [simple_key_press, hc]
    rw [if_neg (by simp [List.isEmpty_iff, hne]),
      if_neg (not_not_intro (contains_iff_mem.mpr hmem)),
      indexOf_of_getLast _ _ ht3 hh]
    simp
  · obtain ⟨c, hc⟩ := Option.ne_none_iff_exists'.mp hu1
    rw [hc] at hu2
    have hh : u.all_scans.head? = some c := hu2.symm
    have hne : u.all_scans ≠ [] := by
      intro he; rw [he] at hh; exact Option.noConfusion hh
    have hmem : c ∈ u.all_scans := mem_of_head _ _ hh
    simp only [ms1ms2_key_press, hc]
    rw [if_neg (by simp [List.isEmpty_iff, hne]),
      if_neg (not_not_intro (contains_iff_mem.mpr hmem)),
      indexOf_of_head _ _ hh]
    simp
  · obtain ⟨c, hc⟩ := Option.ne_none_iff_exists'.mp hv1
    rw [hc] at hv2
    have hh : v.all_scans.getLast? = some c := hv2.symm
    have hne : v.all_scans ≠ [] := by
      intro he; rw [he] at hh; exact Option.noConfusion hh
    have hmem : c ∈ v.all_scans := mem_of_getLast _ _ hh
    simp only [ms1ms2_key_press, hc]
    rw [if_neg (by simp [List.isEmpty_iff, hne]),
      if_neg (not_not_intro (contains_iff_mem.mpr hmem)),
      indexOf_of_getLast _ _ hv3 hh]
    simp

/-- Claim C9 witness: concrete two-scan viewers at the left and right
boundaries. -/
theorem claim_C9_witness :
    simple_key_press exC9simpleA Key.left = exC9simpleA ∧
    simple_key_press exC9simpleB Key.right = exC9simpleB ∧
    ms1ms2_key_press exC9tabA Key.left = exC9tabA ∧
    ms1ms2_key_press exC9tabB Key.right = exC9tabB :=
  claim_C9 exC9simpleA exC9simpleB exC9tabA exC9tabB
    (by decide) (by decide) (by decide) (by decide) (by decide)
    (by decide) (by decide) (by decide) (by decide) (by decide)


/-- Claim C1 (counterexample): after processing the 3-scan table and
clicking at x = 2.3, scan 2 is selected, the MS2 panel shows scan 2's peaks
and the MS1 band [498.5, 501.5] is drawn — but the MS1 panel does NOT render
scan 1's peaks: the click handler never resolves the governing MS1 scan, so
the MS1 panel keeps its previous (empty) rendering. -/
theorem claim_C1_counterexample :
    exClicked.current_scan = some 2 ∧
    exClicked.ax_ms2.vlines = [(150, 5), (160, 7)] ∧
    exClicked.ax_ms1.spans = [(498.5, 501.5)] ∧
    exClicked.ax_ms1.vlines = [] ∧
    exClicked.ax_ms1.vlines ≠ [(100, 10), (101, 20)] := by
  decide

/-- Claim C1 (amended): clicking at x = 2.3 selects scan 2, the MS2 panel
renders scan 2's peaks, and the MS1 highlight band spans exactly
[498.5, 501.5] (the title guard passes); but the MS1 panel is left exactly
as it was before the click (empty) — `find_ms1_scan` would resolve the
governing MS1 scan 1, yet `on_click` goes through `update_scan`, which only
redraws the MS1 panel when the clicked scan itself has MS1 rows. -/
theorem claim_C1 :
    exProcessed.all_scans = [1, 2, 3] ∧
    nearest_scan [1, 2, 3] (23/10) = 2 ∧
    exClicked.current_scan = some 2 ∧
    exClicked.ax_ms2.title = "MS2 Spectrum - Scan 2" ∧
    exClicked.ax_ms2.vlines = [(150, 5), (160, 7)] ∧
    exClicked.ax_ms1.spans = [(498.5, 501.5)] ∧
    exClicked.ms2_shading_ms1 = some (498.5, 501.5) ∧
    exClicked.ax_ms1.title = exProcessed.ax_ms1.title ∧
    exClicked.ax_ms1.vlines = exProcessed.ax_ms1.vlines ∧
    exClicked.ax_ms1.vlines = [] ∧
    find_ms1_scan exDf.rows exProcessed.all_scans 2 = some 1 := by
  decide

/-- Claim C5 (counterexample): right after processing, no MS1 spectrum is
shown (the MS1 panel is empty) yet selecting the MS2 scan still draws the
MS1 highlight band — the code's guard checks the axes title, not whether a
spectrum is shown, so "drawn only if an MS1 spectrum is currently shown" is
false. -/
theorem claim_C5_counterexample :
    exProcessed.ax_ms1.vlines = [] ∧
    exProcessed.ax_ms1.title = "MS1 Spectrum" ∧
    (ms1ms2_update_scan exProcessed 2).ax_ms1.vlines = [] ∧
    (ms1ms2_update_scan exProcessed 2).ms2_shading_ms1 = some (498.5, 501.5) ∧
    (ms1ms2_update_scan exProcessed 2).ax_ms1.spans = [(498.5, 501.5)] := by
  decide

/-- Claim C5 (amended): selecting an MS2 scan whose table carries the
`precursor_mz` column draws the MS2 band over exactly
[p - 1.5 + 1.45, p + 1.5 - 1.45] = [p - 0.05, p + 0.05], and draws the MS1
band over the full [p - 1.5, p + 1.5] whenever the MS1 axes title is
non-empty and does not contain "No MS1 data" (the code's actual guard —
which does not require an MS1 spectrum to be shown). -/
theorem claim_C5 (s : MS1MS2State) (d : DataFrame) (n : ℤ) (p : ℚ)
    (hdf : s.df = some d)
    (hcol : d.cols.contains "precursor_mz" = true)
    (hms2 : ¬ levelRows (scanRows d.rows n) 2 = [])
    (hp : ((levelRows (scanRows d.rows n) 2).headD default).precursor_mz = p)
    (hguard : ms1TitleAfter s d n ≠ "" ∧
      ¬ strContains (ms1TitleAfter s d n) "No MS1 data" = true) :
    (ms1ms2_update_scan s n).ms2_shading_ms2
        = some (p - 1.5 + 1.45, p + 1.5 - 1.45) ∧
    p - 1.5 + 1.45 = p - 0.05 ∧ p + 1.5 - 1.45 = p + 0.05 ∧
    (ms1ms2_update_scan s n).ms2_shading_ms1 = some (p - 1.5, p + 1.5) := by
  have hms2e : ¬ (levelRows (scanRows d.rows n) 2).isEmpty = true :=
    fun hc => hms2 (List.isEmpty_iff.mp hc)
  rw [List.headD_eq_head?] at hp
  unfold ms1TitleAfter at hguard
  simp only [ms1ms2_update_scan, hdf]
  by_cases hms1 : (levelRows (scanRows d.rows n) 1).isEmpty = true
  · rw [if_pos hms1] at hguard
    rw [if_pos hms1, if_neg hms2e, if_pos hcol, if_pos hguard]
    refine ⟨by simp [hp], by ring, by ring, by simp [hp]⟩
  · rw [if_neg hms1] at hguard
    rw [if_neg hms1, if_neg hms2e, if_pos hcol, if_pos hguard]
    refine ⟨by simp [hp], by ring, by ring, by simp [hp]⟩

/-- Claim C5 witness: the amended behaviour at the processed 3-scan example
with precursor 500. -/
theorem claim_C5_witness :
    (ms1ms2_update_scan exProcessed 2).ms2_shading_ms2
        = some ((500 : ℚ) - 1.5 + 1.45, (500 : ℚ) + 1.5 - 1.45) ∧
    (500 : ℚ) - 1.5 + 1.45 = (500 : ℚ) - 0.05 ∧
    (500 : ℚ) + 1.5 - 1.45 = (500 : ℚ) + 0.05 ∧
    (ms1ms2_update_scan exProcessed 2).ms2_shading_ms1
        = some ((500 : ℚ) - 1.5, (500 : ℚ) + 1.5) :=
  claim_C5 exProcessed exDf 2 500 (by decide) (by decide) (by decide)
    (by decide) ⟨by decide, by decide⟩


theorem countP_congr_on (l : List Peak) (p q : Peak → Bool)
    (h : ∀ a ∈ l, p a = q a) : l.countP p = l.countP q := by
  induction l with
  | nil => rfl
  | cons x xs ih =>
    rw [List.countP_cons, List.countP_cons, h x (List.mem_cons_self x xs),
      ih (fun a ha => h a (List.mem_cons_of_mem x ha))]

theorem sorted_lt_get_iff (l : List ℤ) (hs : l.Sorted (· < ·))
    (i j : Fin l.length) : l.get i < l.get j ↔ (i : ℕ) < (j : ℕ) := by
  constructor
  · intro hlt
    rcases lt_trichotomy (i : ℕ) (j : ℕ) with h | h | h
    · exact h
    · exact absurd hlt (by rw [Fin.ext h]; exact lt_irrefl _)
    · exact absurd (hs.rel_get_of_lt h) (not_lt_of_lt hlt)
  · exact fun h => hs.rel_get_of_lt h

theorem mem_enumFrom_map (olds : List ℤ) :
    ∀ (k : ℕ) (e : ℤ × ℤ),
      e ∈ (olds.enumFrom k).map (fun p => (p.2, (p.1 : ℤ) + 1)) →
      ∃ i : ℕ, ∃ hi : i < olds.length,
        e = (olds.get ⟨i, hi⟩, (i : ℤ) + (k : ℤ) + 1) := by
  induction olds with
  | nil => intro k e he; simp [List.enumFrom] at he
  | cons x xs ih =>
    intro k e he
    rw [List.enumFrom_cons, List.map_cons] at he
    rcases List.mem_cons.mp he with heq | he2
    · refine ⟨0, Nat.succ_pos _, ?_⟩
      rw [heq]
      simp
    · obtain ⟨i, hi, heq⟩ := ih (k + 1) e he2
      refine ⟨i + 1, Nat.succ_lt_succ hi, ?_⟩
      rw [heq, List.get_cons_succ]
      refine Prod.ext rfl ?_
      push_cast
      ring

theorem mem_scan_mapping (olds : List ℤ) (e : ℤ × ℤ) (he : e ∈ scan_mapping olds) :
    ∃ i : ℕ, ∃ hi : i < olds.length, e = (olds.get ⟨i, hi⟩, (i : ℤ) + 1) := by
  obtain ⟨i, hi, heq⟩ := mem_enumFrom_map olds 0 e (by
    rw [scan_mapping, show olds.enum = olds.enumFrom 0 from rfl] at he
    exact he)
  refine ⟨i, hi, ?_⟩
  rw [heq]
  norm_num

theorem indexOf_get_of_mem (olds : List ℤ) (a : ℤ) (i : ℕ) (hi : i < olds.length)
    (hn : olds.Nodup) (ha : a ∈ olds) :
    olds.indexOf a = i ↔ a = olds.get ⟨i, hi⟩ := by
  constructor
  · intro h
    have hlt : olds.indexOf a < olds.length := List.indexOf_lt_length.mpr ha
    have := List.indexOf_get hlt
    rw [← this]
    congr 1
    exact Fin.ext h
  · intro h
    have hlt : olds.indexOf a < olds.length := List.indexOf_lt_length.mpr ha
    have hg : olds.get ⟨olds.indexOf a, hlt⟩ = olds.get ⟨i, hi⟩ := by
      rw [List.indexOf_get hlt, h]
    have := (hn.get_inj_iff).mp hg
    exact congrArg Fin.val this

theorem renumber_count (rows : List Peak) (e : ℤ × ℤ)
    (he : e ∈ scan_mapping (uniqueSorted (rows.map Peak.scan_number))) :
    rows.countP (fun q => q.scan_number == e.1)
      = (renumber_scans rows).countP (fun q => q.scan_number == e.2) := by
  obtain ⟨i, hi, rfl⟩ := mem_scan_mapping _ e he
  unfold renumber_scans
  rw [List.countP_map]
  apply countP_congr_on
  intro a ha
  have hmem : a.scan_number ∈ uniqueSorted (rows.map Peak.scan_number) :=
    mem_uniqueSorted.mpr (List.mem_map_of_mem _ ha)
  simp only [Function.comp]
  rw [lookup_scan_mapping _ _ hmem]
  have hiff := indexOf_get_of_mem (uniqueSorted (rows.map Peak.scan_number))
    a.scan_number i hi (uniqueSorted_nodup _) hmem
  by_cases hx : a.scan_number = (uniqueSorted (rows.map Peak.scan_number)).get ⟨i, hi⟩
  · have hidx := hiff.mpr hx
    have hbeq1 : (a.scan_number
        == (uniqueSorted (rows.map Peak.scan_number)).get ⟨i, hi⟩) = true :=
      beq_iff_eq.mpr hx
    have hbeq2 : ((((uniqueSorted (rows.map Peak.scan_number)).indexOf
        a.scan_number : ℤ) + 1 : ℤ) == (i : ℤ) + 1) = true :=
      beq_iff_eq.mpr (by rw [hidx])
    simp only [Option.getD_some, hbeq1, hbeq2]
  · have hidx : (uniqueSorted (rows.map Peak.scan_number)).indexOf a.scan_number ≠ i :=
      fun hc => hx (hiff.mp hc)
    have hidx2 :
        ((uniqueSorted (rows.map Peak.scan_number)).indexOf a.scan_number : ℤ) + 1
          ≠ (i : ℤ) + 1 := by
      intro hc
      exact hidx (by exact_mod_cast add_right_cancel hc)
    have hbeq1 : (a.scan_number
        == (uniqueSorted (rows.map Peak.scan_number)).get ⟨i, hi⟩) = false :=
      beq_false_of_ne hx
    have hbeq2 : ((((uniqueSorted (rows.map Peak.scan_number)).indexOf
        a.scan_number : ℤ) + 1 : ℤ) == (i : ℤ) + 1) = false :=
      beq_false_of_ne hidx2
    simp only [Option.getD_some, hbeq1, hbeq2]

/-- Claim C7: the dense renumbering mapping lists the sorted unique old scan
numbers in strictly ascending order, sends the i-th of them to i + 1 (so the
new numbers are exactly 1..N, order-preserved), and preserves the row count
of every scan group; on scan numbers [5, 5, 9, 9, 9, 20] it yields
{5 ↦ 1, 9 ↦ 2, 20 ↦ 3} with output scans exactly {1, 2, 3} and group sizes
2, 3, 1 preserved. -/
theorem claim_C7 (rows : List Peak) :
    (scan_mapping (uniqueSorted (rows.map Peak.scan_number))).map Prod.fst
        = uniqueSorted (rows.map Peak.scan_number) ∧
    ((scan_mapping (uniqueSorted (rows.map Peak.scan_number))).map Prod.fst).Sorted (· < ·) ∧
    (∀ i : ℕ, ∀ hm : i < (scan_mapping (uniqueSorted (rows.map Peak.scan_number))).length,
        ((scan_mapping (uniqueSorted (rows.map Peak.scan_number))).get ⟨i, hm⟩).2
          = (i : ℤ) + 1) ∧
    (∀ e1 ∈ scan_mapping (uniqueSorted (rows.map Peak.scan_number)),
      ∀ e2 ∈ scan_mapping (uniqueSorted (rows.map Peak.scan_number)),
        (e1.1 < e2.1 ↔ e1.2 < e2.2)) ∧
    (∀ e ∈ scan_mapping (uniqueSorted (rows.map Peak.scan_number)),
        rows.countP (fun q => q.scan_number == e.1)
          = (renumber_scans rows).countP (fun q => q.scan_number == e.2)) ∧
    scan_mapping (uniqueSorted (exC7rows.map Peak.scan_number))
        = [(5, 1), (9, 2), (20, 3)] ∧
    uniqueSorted ((renumber_scans exC7rows).map Peak.scan_number) = [1, 2, 3] ∧
    (renumber_scans exC7rows).countP (fun q => q.scan_number == 1) = 2 ∧
    (renumber_scans exC7rows).countP (fun q => q.scan_number == 2) = 3 ∧
    (renumber_scans exC7rows).countP (fun q => q.scan_number == 3) = 1 := by
  have hfst : (scan_mapping (uniqueSorted (rows.map Peak.scan_number))).map Prod.fst
      = uniqueSorted (rows.map Peak.scan_number) := by
    rw [List.ext_get?_iff]
    intro n
    rw [List.get?_map, scan_mapping_get?]
    cases (uniqueSorted (rows.map Peak.scan_number)).get? n <;> simp
  refine ⟨hfst, by rw [hfst]; exact uniqueSorted_sorted_lt _, ?_, ?_, ?_,
    by decide, by decide, by decide, by decide, by decide⟩
  · intro i hm
    have hi : i < (uniqueSorted (rows.map Peak.scan_number)).length := by
      rw [← scan_mapping_length]; exact hm
    have h := scan_mapping_get? (uniqueSorted (rows.map Peak.scan_number)) i
    rw [List.get?_eq_get hm, List.get?_eq_get hi] at h
    simp only [Option.map_some', Option.some.injEq] at h
    rw [h]
  · intro e1 he1 e2 he2
    obtain ⟨i, hi, rfl⟩ := mem_scan_mapping _ e1 he1
    obtain ⟨j, hj, rfl⟩ := mem_scan_mapping _ e2 he2
    dsimp only
    rw [sorted_lt_get_iff _ (uniqueSorted_sorted_lt _) ⟨i, hi⟩ ⟨j, hj⟩]
    show i < j ↔ (i : ℤ) + 1 < (j : ℤ) + 1
    omega
  · exact fun e he => renumber_count rows e he

/-- Claim C7 witness: the mapping and the preserved group count of scan 5 on
the concrete [5, 5, 9, 9, 9, 20] table. -/
theorem claim_C7_witness :
    scan_mapping (uniqueSorted (exC7rows.map Peak.scan_number))
        = [(5, 1), (9, 2), (20, 3)] ∧
    exC7rows.countP (fun q => q.scan_number == (5 : ℤ))
      = (renumber_scans exC7rows).countP (fun q => q.scan_number == (1 : ℤ)) := by
  have h := claim_C7 exC7rows
  refine ⟨h.2.2.2.2.2.1, ?_⟩
  have h5 := h.2.2.2.2.1 (5, 1) (by decide)
  simpa using h5

end MainTheorems
